import Mathlib

/-!
Shallow embedding of the `miri-tools` dispatcher (`src/main.rs`, `src/tui.rs`).

The embedding models, faithfully to the source:
* the crate/job data model (`Crate` with name, version, recent download count);
* the rerun policy (`RerunWhen`, clap default `never`) and the artifact-existence
  filter plus the final reversal that build the shared work queue
  (main.rs lines 189-212);
* crate-list resolution against the catalog (main.rs lines 134-162), including
  the most-downloaded-first sort;
* the filesystem effects used by a worker: `create_dir_all("logs/<name>")` and
  `fs::write("logs/<name>/<version>", output)` (main.rs lines 255-256);
* the sentinel read loop (main.rs lines 243-253): `read_line` accumulation,
  `trim_end().ends_with(delim)` test, and `truncate(len - delim.len() - 1)`;
* the worker thread body (pop from the shared Vec, run the job, persist,
  `try_wait` crash check and respawn, main.rs lines 227-264);
* the interleaved multi-worker pool over the `Arc<Mutex<Vec<Crate>>>` queue,
  where a mutex-guarded `Vec::pop` is one atomic step;
* the progress/ETA arithmetic of main.rs lines 170-186 and tui.rs lines 98-106,
  with division made explicit via `checkedDiv` so divide-by-zero is observable.
-/

namespace MiriTools

/-- One job: a crate name, an exact version, and its recent download count
(`miri_the_world::Crate`, the fields used by `main.rs`). -/
structure Crate where
  name : String
  version : String
  recent_downloads : Nat
deriving DecidableEq

/-- The `--rerun-when` flag (main.rs lines 78-94). -/
inductive RerunWhen where
  | Always
  | Never
deriving DecidableEq

/-- Clap default for `--rerun-when` (main.rs line 34: `default_value_t = RerunWhen::Never`). -/
def argsDefaultRerunWhen : RerunWhen := RerunWhen.Never

/-- Output buffers and stream lines are sequences of characters
(Rust `String` contents). -/
abbrev Buf := List Char

/-- Filesystem model: the set of directories created so far and an association
list of files keyed by path, where a write replaces any previous entry. -/
structure FS where
  dirs : List String
  files : List (String × Buf)
deriving DecidableEq

/-- Directory holding one crate's logs: `format!("logs/{}", krate.name)`
(main.rs line 255). -/
def artifactDir (c : Crate) : String := "logs/" ++ c.name

/-- Artifact path for one job: `format!("logs/{}/{}", krate.name, krate.version)`
(main.rs lines 195 and 256). -/
def artifactPath (c : Crate) : String := "logs/" ++ c.name ++ "/" ++ c.version

/-- `fs::create_dir_all`: records the directory, a no-op when present. -/
def createDirAll (fs : FS) (d : String) : FS :=
  { fs with dirs := if fs.dirs.contains d then fs.dirs else d :: fs.dirs }

/-- `fs::write`: truncating write, replacing any previous file at the path. -/
def writeFile (fs : FS) (p : String) (content : Buf) : FS :=
  { fs with files := (p, content) :: fs.files.filter (fun e => e.1 ≠ p) }

/-- `Path::exists` (main.rs line 195). -/
def fileExists (fs : FS) (p : String) : Bool :=
  fs.files.any (fun e => e.1 = p)

/-- Reading back the file at a path (its latest written content). -/
def lookupFile (fs : FS) (p : String) : Option Buf :=
  (fs.files.find? (fun e => e.1 = p)).map (fun e => e.2)

/-- Persisting one job's output (main.rs lines 255-256):
`fs::create_dir_all(format!("logs/{}", krate.name))` followed by
`fs::write(format!("logs/{}/{}", krate.name, krate.version), &*output)`. -/
def persistArtifact (fs : FS) (c : Crate) (out : Buf) : FS :=
  writeFile (createDirAll fs (artifactDir c)) (artifactPath c) out

/-- The per-crate body of the rerun filter (main.rs lines 192-197):
`Always` keeps everything, `Never` keeps a crate exactly when its
artifact path does not exist yet. -/
def shouldRun (rerun : RerunWhen) (fs : FS) (c : Crate) : Bool :=
  match rerun with
  | RerunWhen.Always => true
  | RerunWhen.Never => !(fileExists fs (artifactPath c))

/-- Queue construction from the resolved crate list: the rerun filter
(main.rs lines 189-201) followed by the reversal before sharing
(main.rs line 211, "Reverse the sort order, most-downloaded last"). -/
def buildQueue (rerun : RerunWhen) (fs : FS) (crates : List Crate) : List Crate :=
  (crates.filter (shouldRun rerun fs)).reverse

/-- `crates.sort_by(|a, b| b.recent_downloads.cmp(&a.recent_downloads))`
(main.rs line 154): stable sort, most downloads first. -/
def sortByDownloadsDesc (crates : List Crate) : List Crate :=
  crates.mergeSort (fun a b => b.recent_downloads ≤ a.recent_downloads)

/-- The pieces of `line.split("==")`, structurally on the character list:
cut at every occurrence of `==`, scanning left to right. -/
def splitPieces : List Char → List (List Char)
  | [] => [[]]
  | '=' :: '=' :: rest => [] :: splitPieces rest
  | c :: rest =>
    match splitPieces rest with
    | [] => [[c]]
    | p :: ps => (c :: p) :: ps

/-- One token of the crate list file: `line.split("==")` with the first
piece as the name (`it.next().unwrap()`, never absent since `split` yields
at least one piece) and the second, when present, as the version
(main.rs lines 142-144). -/
def splitToken (s : String) : String × Option String :=
  match splitPieces s.data with
  | [] => ("", none)
  | [n] => (String.mk n, none)
  | n :: v :: _ => (String.mk n, some (String.mk v))

/-- Catalog lookup through the `HashMap<String, Crate>` built by inserting
every catalog crate keyed by name (main.rs lines 136-139): the last
insertion for a name wins. -/
def nameMapLookup (allCrates : List Crate) (name : String) : Option Crate :=
  allCrates.reverse.find? (fun c => c.name = name)

/-- Token resolution of the crate-list loop (main.rs lines 140-153): each
token is resolved against the catalog map, the version is overridden when
the token carries one, and unresolved names are dropped. -/
def resolveTokens (allCrates : List Crate) (tokens : List String) : List Crate :=
  tokens.filterMap fun tok =>
    ((nameMapLookup allCrates (splitToken tok).1).map fun c =>
      { c with version := ((splitToken tok).2).getD c.version })

/-- Crate-list resolution (main.rs lines 134-155): resolve the tokens, then
sort most-downloaded first. -/
def resolveCrateList (allCrates : List Crate) (tokens : List String) : List Crate :=
  sortByDownloadsDesc (resolveTokens allCrates tokens)

/-- `Vec::pop` on the shared queue (main.rs line 229): removes and returns
the last element. -/
def vecPop (q : List Crate) : Option (Crate × List Crate) :=
  match q.reverse with
  | [] => none
  | c :: rest => some (c, rest.reverse)

theorem vecPop_eq_some {q q' : List Crate} {c : Crate} :
    vecPop q = some (c, q') ↔ q = q' ++ [c] := by
  unfold vecPop
  constructor
  · intro h
    rcases hr : q.reverse with _ | ⟨c₀, rest⟩
    · rw [hr] at h; exact absurd h (by simp)
    · rw [hr] at h
      simp only [Option.some.injEq, Prod.mk.injEq] at h
      have hq : q = (c₀ :: rest).reverse := by
        rw [← hr, List.reverse_reverse]
      rw [hq, List.reverse_cons, h.1, h.2]
  · intro h
    subst h
    simp

theorem vecPop_nil : vecPop [] = none := rfl

theorem vecPop_append_singleton (l : List Crate) (c : Crate) :
    vecPop (l ++ [c]) = some (c, l) := by
  simp [vecPop]

/-- Draining the queue by successive pops: the order in which jobs are
handed out across the pool. -/
def drainAll (q : List Crate) : List Crate :=
  match h : vecPop q with
  | none => []
  | some (c, q') => c :: drainAll q'
termination_by q.length
decreasing_by
  rw [vecPop_eq_some.mp h]
  simp

theorem drainAll_nil : drainAll [] = [] := by
  unfold drainAll; rfl

theorem drainAll_append_singleton (l : List Crate) (c : Crate) :
    drainAll (l ++ [c]) = c :: drainAll l := by
  conv_lhs => unfold drainAll
  split
  · next heq => rw [vecPop_append_singleton] at heq; cases heq
  · next c' q' heq =>
    rw [vecPop_append_singleton] at heq
    simp only [Option.some.injEq, Prod.mk.injEq] at heq
    rw [heq.1, heq.2]

theorem drainAll_eq_reverse (q : List Crate) : drainAll q = q.reverse := by
  induction q using List.reverseRecOn with
  | nil => exact drainAll_nil
  | append_singleton l c ih =>
    rw [drainAll_append_singleton, ih, List.reverse_append]
    rfl

/-- `str::trim_end`: drop trailing whitespace characters. -/
def trimEnd (s : Buf) : Buf :=
  (s.reverse.dropWhile Char.isWhitespace).reverse

/-- `str::ends_with`: `d` is a suffix of `s`. -/
def endsWithBuf (s d : Buf) : Bool :=
  if d.length ≤ s.length then decide (s.drop (s.length - d.length) = d) else false

/-- The sentinel marker with surrounding dashes:
`format!("-{}-", test_end_delimiter)` (main.rs line 223). -/
def delimWithDashes (sentinel : Buf) : Buf :=
  '-' :: (sentinel ++ ['-'])

/-- The sentinel read loop (main.rs lines 243-253).  `lines` are the
successive chunks appended by `read_line`; the end of the list is the
closed stream (`read_line` returning zero bytes).  After each read the
whole buffer is trim-end tested against the marker; on a match the buffer
is truncated by `delim.length + 1` characters and the loop reports the
sentinel as matched, and on a zero-byte read it stops with the buffer as
is.  Returns the final buffer and whether the sentinel was matched. -/
def readLoop (delim : Buf) : List Buf → Buf → Buf × Bool
  | [], acc =>
    if endsWithBuf (trimEnd acc) delim then
      (acc.take (acc.length - delim.length - 1), true)
    else
      (acc, false)
  | line :: rest, acc =>
    let acc' := acc ++ line
    if endsWithBuf (trimEnd acc') delim then
      (acc'.take (acc'.length - delim.length - 1), true)
    else
      readLoop delim rest acc'

theorem endsWithBuf_append (t d : Buf) : endsWithBuf (t ++ d) d = true := by
  unfold endsWithBuf
  rw [if_pos (by simp)]
  simp

theorem trimEnd_append_ws (l : Buf) (c : Char) (hc : c.isWhitespace = true) :
    trimEnd (l ++ [c]) = trimEnd l := by
  unfold trimEnd
  rw [List.reverse_append]
  simp [List.dropWhile, hc]

theorem trimEnd_append_not_ws (l : Buf) (c : Char) (hc : c.isWhitespace = false) :
    trimEnd (l ++ [c]) = l ++ [c] := by
  unfold trimEnd
  rw [List.reverse_append]
  simp [List.dropWhile, hc]

theorem trimEnd_sentinel_line (e s : Buf) :
    trimEnd (e ++ (delimWithDashes s ++ ['\n'])) = e ++ delimWithDashes s := by
  rw [← List.append_assoc]
  rw [trimEnd_append_ws _ '\n' rfl]
  show trimEnd (e ++ ('-' :: (s ++ ['-']))) = _
  rw [show e ++ ('-' :: (s ++ ['-'])) = (e ++ ('-' :: s)) ++ ['-'] by simp]
  rw [trimEnd_append_not_ws _ '-' rfl]
  simp [delimWithDashes]

/-- If the read loop never matches the sentinel, the buffer it returns is
the concatenation of everything read so far (the whole partial output). -/
theorem readLoop_no_sentinel (delim : Buf) (lines : List Buf) (acc : Buf)
    (h : (readLoop delim lines acc).2 = false) :
    (readLoop delim lines acc).1 = acc ++ lines.flatten := by
  induction lines generalizing acc with
  | nil =>
    unfold readLoop at *
    by_cases hm : endsWithBuf (trimEnd acc) delim
    · rw [if_pos hm] at h; cases h
    · rw [if_neg hm] at *; simp
  | cons line rest ih =>
    unfold readLoop at h ⊢
    by_cases hm : endsWithBuf (trimEnd (acc ++ line)) delim
    · rw [if_pos hm] at h; cases h
    · rw [if_neg hm] at h ⊢
      rw [ih _ h]
      simp

/-- The read loop on a clean two-line exchange: any echoed line that does
not itself trigger the sentinel test, followed by a line that ends with the
dash-surrounded sentinel.  The result is everything before the marker —
the echoed line plus whatever prefix the final line carries — with the
marker and the newline after it truncated away. -/
theorem readLoop_sentinel_line (s line pfx : Buf)
    (h : endsWithBuf (trimEnd line) (delimWithDashes s) = false) :
    readLoop (delimWithDashes s) [line, pfx ++ (delimWithDashes s ++ ['\n'])] []
      = (line ++ pfx, true) := by
  unfold readLoop
  rw [List.nil_append, if_neg (by simp [h])]
  unfold readLoop
  have hts : trimEnd (line ++ (pfx ++ (delimWithDashes s ++ ['\n'])))
      = (line ++ pfx) ++ delimWithDashes s := by
    rw [show line ++ (pfx ++ (delimWithDashes s ++ ['\n']))
        = (line ++ pfx) ++ (delimWithDashes s ++ ['\n']) by simp]
    exact trimEnd_sentinel_line _ s
  rw [if_pos (by rw [hts]; exact endsWithBuf_append _ _)]
  have hlen : (line ++ (pfx ++ (delimWithDashes s ++ ['\n']))).length
      - (delimWithDashes s).length - 1 = line.length + pfx.length := by
    simp
    omega
  rw [hlen]
  rw [show line ++ (pfx ++ (delimWithDashes s ++ ['\n']))
      = (line ++ pfx) ++ (delimWithDashes s ++ ['\n']) by simp]
  rw [show line.length + pfx.length = (line ++ pfx).length by simp]
  rw [List.take_left]

/-- State of one worker thread across its loop (main.rs lines 227-264):
the filesystem it has written, the jobs completed in order, the spawn
generation of its current sandbox child (0 for the initial spawn, bumped
by each respawn), and how many respawns have happened. -/
structure WRun where
  fs : FS
  completed : List Crate
  gen : Nat
  respawns : Nat
deriving DecidableEq

/-- The worker thread body for one popped crate (main.rs lines 234-263):
write the request line, run the sentinel read loop over the child's output
(`childOut` gives the stream of the generation-`gen` child for this crate),
create the log directory, persist the buffer, then `try_wait`: if the child
has exited (`crashes` indexed by how many jobs were completed before this
one), replace it with a freshly spawned one. -/
def stepJob (delim : Buf) (childOut : Nat → Crate → List Buf) (crashes : Nat → Bool)
    (st : WRun) (c : Crate) : WRun :=
  let output := (readLoop delim (childOut st.gen c) []).1
  let exited := crashes st.completed.length
  { fs := persistArtifact st.fs c output
    completed := st.completed ++ [c]
    gen := if exited then st.gen + 1 else st.gen
    respawns := if exited then st.respawns + 1 else st.respawns }

/-- The worker loop (main.rs lines 227-264): pop from the shared queue,
run the job, repeat; a pop returning `None` breaks the loop. -/
def workerLoop (delim : Buf) (childOut : Nat → Crate → List Buf) (crashes : Nat → Bool) :
    List Crate → WRun → WRun
  | q, st =>
    match h : vecPop q with
    | none => st
    | some (c, q') => workerLoop delim childOut crashes q' (stepJob delim childOut crashes st c)
termination_by q => q.length
decreasing_by
  rw [vecPop_eq_some.mp h]
  simp

theorem workerLoop_nil (delim : Buf) (childOut : Nat → Crate → List Buf)
    (crashes : Nat → Bool) (st : WRun) :
    workerLoop delim childOut crashes [] st = st := by
  unfold workerLoop; rfl

theorem workerLoop_append_singleton (delim : Buf) (childOut : Nat → Crate → List Buf)
    (crashes : Nat → Bool) (l : List Crate) (c : Crate) (st : WRun) :
    workerLoop delim childOut crashes (l ++ [c]) st
      = workerLoop delim childOut crashes l (stepJob delim childOut crashes st c) := by
  conv_lhs => unfold workerLoop
  split
  · next heq => rw [vecPop_append_singleton] at heq; cases heq
  · next c' q' heq =>
    rw [vecPop_append_singleton] at heq
    simp only [Option.some.injEq, Prod.mk.injEq] at heq
    rw [heq.1, heq.2]

theorem fileExists_writeFile_same (fs : FS) (p : String) (v : Buf) :
    fileExists (writeFile fs p v) p = true := by
  simp [fileExists, writeFile]

theorem fileExists_writeFile_mono (fs : FS) (p q : String) (v : Buf)
    (h : fileExists fs p = true) :
    fileExists (writeFile fs q v) p = true := by
  simp only [fileExists, writeFile, List.any_eq_true] at *
  obtain ⟨e, he, hep⟩ := h
  by_cases hpq : q = p
  · exact ⟨(q, v), by simp, by simpa using hpq⟩
  · refine ⟨e, ?_, hep⟩
    simp only [List.mem_cons, List.mem_filter]
    right
    refine ⟨he, ?_⟩
    simp only [decide_eq_true_eq] at hep
    simp [hep, hpq]
    exact fun hc => hpq hc.symm

theorem fileExists_createDirAll (fs : FS) (d : String) (p : String) :
    fileExists (createDirAll fs d) p = fileExists fs p := by
  simp [fileExists, createDirAll]

theorem fileExists_stepJob_self (delim : Buf) (childOut : Nat → Crate → List Buf)
    (crashes : Nat → Bool) (st : WRun) (c : Crate) :
    fileExists (stepJob delim childOut crashes st c).fs (artifactPath c) = true := by
  unfold stepJob persistArtifact
  exact fileExists_writeFile_same _ _ _

theorem fileExists_stepJob_mono (delim : Buf) (childOut : Nat → Crate → List Buf)
    (crashes : Nat → Bool) (st : WRun) (c : Crate) (p : String)
    (h : fileExists st.fs p = true) :
    fileExists (stepJob delim childOut crashes st c).fs p = true := by
  unfold stepJob persistArtifact
  apply fileExists_writeFile_mono
  rw [fileExists_createDirAll]
  exact h

theorem workerLoop_fs_mono (delim : Buf) (childOut : Nat → Crate → List Buf)
    (crashes : Nat → Bool) (q : List Crate) (st : WRun) (p : String)
    (h : fileExists st.fs p = true) :
    fileExists (workerLoop delim childOut crashes q st).fs p = true := by
  induction q using List.reverseRecOn generalizing st with
  | nil => rw [workerLoop_nil]; exact h
  | append_singleton l c ih =>
    rw [workerLoop_append_singleton]
    exact ih _ (fileExists_stepJob_mono _ _ _ _ _ _ h)

theorem workerLoop_writes (delim : Buf) (childOut : Nat → Crate → List Buf)
    (crashes : Nat → Bool) (q : List Crate) (st : WRun) (c : Crate) (hc : c ∈ q) :
    fileExists (workerLoop delim childOut crashes q st).fs (artifactPath c) = true := by
  induction q using List.reverseRecOn generalizing st with
  | nil => cases hc
  | append_singleton l c₀ ih =>
    rw [workerLoop_append_singleton]
    rcases List.mem_append.mp hc with hl | hone
    · exact ih _ hl
    · have : c = c₀ := by simpa using hone
      subst this
      exact workerLoop_fs_mono _ _ _ _ _ _ (fileExists_stepJob_self _ _ _ _ _)

/-- Number of crash checks that fire over jobs `start, start+1, …,
start+n-1` (the `try_wait` outcomes seen by a worker). -/
def countCrashes (crashes : Nat → Bool) (start n : Nat) : Nat :=
  match n with
  | 0 => 0
  | m + 1 => (if crashes start then 1 else 0) + countCrashes crashes (start + 1) m

theorem countCrashes_all_true (crashes : Nat → Bool) (hcr : ∀ k, crashes k = true) :
    ∀ n start, countCrashes crashes start n = n := by
  intro n
  induction n with
  | zero => intro start; rfl
  | succ m ih =>
    intro start
    unfold countCrashes
    rw [hcr start, if_pos rfl, ih]
    omega

theorem workerLoop_spec (delim : Buf) (childOut : Nat → Crate → List Buf)
    (crashes : Nat → Bool) (q : List Crate) (st : WRun) :
    (workerLoop delim childOut crashes q st).completed = st.completed ++ q.reverse
    ∧ (workerLoop delim childOut crashes q st).respawns
        = st.respawns + countCrashes crashes st.completed.length q.length
    ∧ (workerLoop delim childOut crashes q st).gen
        = st.gen + countCrashes crashes st.completed.length q.length := by
  induction q using List.reverseRecOn generalizing st with
  | nil => simp [workerLoop_nil, countCrashes]
  | append_singleton l c ih =>
    rw [workerLoop_append_singleton]
    obtain ⟨ih1, ih2, ih3⟩ := ih (stepJob delim childOut crashes st c)
    have hcomp : (stepJob delim childOut crashes st c).completed = st.completed ++ [c] := rfl
    have hlen : (stepJob delim childOut crashes st c).completed.length
        = st.completed.length + 1 := by rw [hcomp]; simp
    refine ⟨?_, ?_, ?_⟩
    · rw [ih1, hcomp, List.reverse_append]
      simp
    · rw [ih2, hlen]
      have hre : (stepJob delim childOut crashes st c).respawns
          = st.respawns + (if crashes st.completed.length then 1 else 0) := by
        unfold stepJob
        by_cases hcr : crashes st.completed.length <;> simp [hcr]
      rw [hre]
      have : countCrashes crashes st.completed.length (l ++ [c]).length
          = (if crashes st.completed.length then 1 else 0)
            + countCrashes crashes (st.completed.length + 1) l.length := by
        simp only [List.length_append, List.length_cons, List.length_nil]
        rfl
      rw [this]
      omega
    · rw [ih3, hlen]
      have hge : (stepJob delim childOut crashes st c).gen
          = st.gen + (if crashes st.completed.length then 1 else 0) := by
        unfold stepJob
        by_cases hcr : crashes st.completed.length <;> simp [hcr]
      rw [hge]
      have : countCrashes crashes st.completed.length (l ++ [c]).length
          = (if crashes st.completed.length then 1 else 0)
            + countCrashes crashes (st.completed.length + 1) l.length := by
        simp only [List.length_append, List.length_cons, List.length_nil]
        rfl
      rw [this]
      omega

/-- The shared state of the pool of `P` workers: the `Arc<Mutex<Vec<Crate>>>`
queue (main.rs line 212) plus, per worker, the jobs it has claimed (newest
first).  The mutex makes each `pop` one atomic step, so an execution of the
pool is an interleaving of such steps. -/
structure PoolState (P : Nat) where
  queue : List Crate
  claimed : Fin P → List Crate

/-- One scheduled step of worker `w`: take the lock and `pop` (main.rs
lines 229-232).  An empty queue leaves the state unchanged (the worker
observes `None` and breaks). -/
def poolStep {P : Nat} (s : PoolState P) (w : Fin P) : PoolState P :=
  match vecPop s.queue with
  | none => s
  | some (c, q') => { queue := q', claimed := Function.update s.claimed w (c :: s.claimed w) }

/-- Run the pool under an arbitrary interleaving of worker steps. -/
def poolRun (P : Nat) (q₀ : List Crate) (sched : List (Fin P)) : PoolState P :=
  sched.foldl poolStep { queue := q₀, claimed := fun _ => [] }

/-- All jobs claimed across the pool, as a multiset. -/
def claimedAll {P : Nat} (s : PoolState P) : Multiset Crate :=
  ∑ w : Fin P, (s.claimed w : Multiset Crate)

theorem coe_cons_multiset (c : Crate) (l : List Crate) :
    ((c :: l : List Crate) : Multiset Crate) = {c} + (l : Multiset Crate) := by
  rw [Multiset.singleton_add, Multiset.cons_coe]

theorem coe_append_multiset (l₁ l₂ : List Crate) :
    ((l₁ ++ l₂ : List Crate) : Multiset Crate)
      = (l₁ : Multiset Crate) + (l₂ : Multiset Crate) := by
  rw [Multiset.coe_add]

theorem claimedAll_poolStep {P : Nat} (s : PoolState P) (w : Fin P) :
    (poolStep s w).queue + claimedAll (poolStep s w)
      = (s.queue : Multiset Crate) + claimedAll s := by
  unfold poolStep
  rcases h : vecPop s.queue with _ | ⟨c, q'⟩
  · rfl
  · have hq : s.queue = q' ++ [c] := vecPop_eq_some.mp h
    simp only []
    have hupd : claimedAll
        (⟨q', Function.update s.claimed w (c :: s.claimed w)⟩ : PoolState P)
        = claimedAll s + {c} := by
      unfold claimedAll
      simp only []
      have happ : ∀ x : Fin P,
          ((Function.update s.claimed w (c :: s.claimed w) x : List Crate) : Multiset Crate)
            = Function.update (fun i => ((s.claimed i : List Crate) : Multiset Crate)) w
                ((c :: s.claimed w : List Crate) : Multiset Crate) x := fun x =>
        Function.apply_update (fun (_ : Fin P) (l : List Crate) => (l : Multiset Crate))
          s.claimed w (c :: s.claimed w) x
      rw [Finset.sum_congr rfl (fun x _ => happ x)]
      rw [Finset.sum_update_of_mem (Finset.mem_univ w)]
      rw [coe_cons_multiset]
      rw [← Finset.add_sum_erase _ _ (Finset.mem_univ w), Finset.erase_eq]
      abel
    rw [hupd, hq, coe_append_multiset, Multiset.coe_singleton]
    abel

theorem poolRun_invariant (P : Nat) (q₀ : List Crate) (sched : List (Fin P)) :
    ((poolRun P q₀ sched).queue : Multiset Crate) + claimedAll (poolRun P q₀ sched)
      = (q₀ : Multiset Crate) := by
  unfold poolRun
  suffices h : ∀ (s : PoolState P),
      ((sched.foldl poolStep s).queue : Multiset Crate) + claimedAll (sched.foldl poolStep s)
        = (s.queue : Multiset Crate) + claimedAll s by
    rw [h]
    unfold claimedAll
    simp
  intro s
  induction sched generalizing s with
  | nil => rfl
  | cons w rest ih =>
    rw [List.foldl_cons, ih, claimedAll_poolStep]

/-- The join loop at main.rs lines 268-270 (`t.join().unwrap()`) followed by
`Ok(())`: the process exit status is 0 unless some spawned worker thread
panicked, in which case the `unwrap` panics and the process aborts with the
Rust panic exit status 101. -/
def joinAllExit (P : Nat) (panicked : Fin P → Bool) : Nat :=
  if (List.finRange P).any (fun w => panicked w) then 101 else 0

/-- The worker count (main.rs line 217):
`args.jobs.unwrap_or_else(|| num_cpus::get_physical() - 1)`. -/
def workerCount (jobsFlag : Option Nat) (physicalCpus : Nat) : Nat :=
  jobsFlag.getD (physicalCpus - 1)

/-- Division as the code performs it, with the zero-divisor case made
observable: `none` is a division by zero. -/
def checkedDiv (a b : Nat) : Option Nat :=
  if b = 0 then none else some (a / b)

/-- The `my_eta` progress-bar key (main.rs lines 170-186): positions
`1..=u64::MAX` with a known length compute `elapsed × (len − pos) / pos`,
anything else renders a dash (`none` here). -/
def myEta (pos : Nat) (len : Option Nat) (elapsedSecs : Nat) : Option (Option Nat) :=
  match pos, len with
  | p + 1, some l => some (checkedDiv (elapsedSecs * (l - (p + 1))) (p + 1))
  | _, _ => none

/-- The completed-crates count of the TUI renderer (tui.rs lines 98-102):
when nothing has finished yet (`total == queue length`) it substitutes 1. -/
def cratesCompleted (totalCrates currentQueueLen : Nat) : Nat :=
  if totalCrates = currentQueueLen then 1 else totalCrates - currentQueueLen

/-- `time_per_crate = start_time.elapsed() / crates_completed`
(tui.rs line 104), with the division checked. -/
def timePerCrate (elapsed totalCrates currentQueueLen : Nat) : Option Nat :=
  checkedDiv elapsed (cratesCompleted totalCrates currentQueueLen)

theorem lookupFile_writeFile_same (fs : FS) (p : String) (v : Buf) :
    lookupFile (writeFile fs p v) p = some v := by
  simp [lookupFile, writeFile, List.find?]

theorem writeFile_writeFile (fs : FS) (p : String) (a b : Buf) :
    writeFile (writeFile fs p a) p b = writeFile fs p b := by
  unfold writeFile
  simp [List.filter_filter]

theorem createDirAll_mem (fs : FS) (d : String) : d ∈ (createDirAll fs d).dirs := by
  unfold createDirAll
  by_cases h : d ∈ fs.dirs
  · simp [h]
  · simp [h]

theorem writeFile_dirs (fs : FS) (p : String) (v : Buf) :
    (writeFile fs p v).dirs = fs.dirs := rfl

theorem createDirAll_of_mem (fs : FS) (d : String)
    (h : d ∈ fs.dirs) : createDirAll fs d = fs := by
  unfold createDirAll
  simp [h]

theorem persistArtifact_overwrite (fs : FS) (c : Crate) (a b : Buf) :
    persistArtifact (persistArtifact fs c a) c b = persistArtifact fs c b := by
  unfold persistArtifact
  rw [createDirAll_of_mem _ _ (by
    rw [writeFile_dirs]
    exact createDirAll_mem fs (artifactDir c))]
  rw [writeFile_writeFile]

theorem mem_buildQueue_never (fs : FS) (catalog : List Crate) (c : Crate) :
    c ∈ buildQueue RerunWhen.Never fs catalog
      ↔ c ∈ catalog ∧ fileExists fs (artifactPath c) = false := by
  unfold buildQueue
  rw [List.mem_reverse, List.mem_filter]
  unfold shouldRun
  simp [Bool.not_eq_true']

theorem buildQueue_never_eq_nil (fs : FS) (catalog : List Crate) :
    buildQueue RerunWhen.Never fs catalog = []
      ↔ ∀ c ∈ catalog, fileExists fs (artifactPath c) = true := by
  unfold buildQueue
  rw [List.reverse_eq_nil_iff, List.filter_eq_nil_iff]
  constructor
  · intro h c hc
    have h2 := h c hc
    unfold shouldRun at h2
    simpa using h2
  · intro h c hc
    unfold shouldRun
    simpa using h c hc

/-- C1 (counterexample): a worker whose child stream closes (`read_line`
returns zero bytes) before the sentinel `-u-` is matched still writes an
Artifact: running the worker body on the crate `foo 1.0.0` with the child
emitting only `hi\n` and then closing persists the partial buffer `hi\n`
at `logs/foo/1.0.0`, contradicting the claim that the partial buffer is
dropped and no Artifact is written. -/
theorem C1_counterexample :
    (readLoop ['-', 'u', '-'] [['h', 'i', '\n']] []).2 = false
    ∧ lookupFile (stepJob ['-', 'u', '-'] (fun _ _ => [['h', 'i', '\n']]) (fun _ => true)
        ⟨⟨[], []⟩, [], 0, 0⟩ ⟨"foo", "1.0.0", 0⟩).fs "logs/foo/1.0.0"
      = some ['h', 'i', '\n'] := by
  constructor
  · decide
  · decide

/-- C1 (amended): for every job whose child output stream closes before the
end-of-output sentinel is matched, the worker body persists the partial
buffer accumulated so far — the concatenation of everything read, with no
sentinel stripping — as the job's Artifact at its artifact path; the crash
is handled only afterwards by the `try_wait` check. -/
theorem C1_partial_persisted (delim : Buf) (childOut : Nat → Crate → List Buf)
    (crashes : Nat → Bool) (st : WRun) (c : Crate)
    (h : (readLoop delim (childOut st.gen c) []).2 = false) :
    lookupFile (stepJob delim childOut crashes st c).fs (artifactPath c)
      = some ((childOut st.gen c).flatten) := by
  unfold stepJob persistArtifact
  rw [lookupFile_writeFile_same]
  rw [readLoop_no_sentinel _ _ _ h]
  rw [List.nil_append]

/-- C1 (witness): the amended theorem applied at the concrete inputs of the
counterexample: stream `hi\n` then closed, job `foo 1.0.0`. -/
theorem C1_partial_persisted_witness :
    lookupFile (stepJob ['-', 'u', '-'] (fun _ _ => [['h', 'i', '\n']]) (fun _ => true)
        ⟨⟨[], []⟩, [], 0, 0⟩ ⟨"foo", "1.0.0", 0⟩).fs (artifactPath ⟨"foo", "1.0.0", 0⟩)
      = some (([['h', 'i', '\n']] : List Buf).flatten) :=
  C1_partial_persisted ['-', 'u', '-'] (fun _ _ => [['h', 'i', '\n']]) (fun _ => true)
    ⟨⟨[], []⟩, [], 0, 0⟩ ⟨"foo", "1.0.0", 0⟩ (by decide)

/-- C2 (counterexample): a crate list naming `serde==1.0.0` twice, resolved
against a catalog containing `serde`, yields a Queue (rerun policy `never`,
no existing artifacts) containing the job `(serde, 1.0.0)` twice — the
build/filter step does not deduplicate within a run. -/
theorem C2_counterexample :
    (buildQueue RerunWhen.Never ⟨[], []⟩
        (resolveCrateList [⟨"serde", "2.0.0", 9⟩] ["serde==1.0.0", "serde==1.0.0"])).count
      (⟨"serde", "1.0.0", 9⟩ : Crate) = 2
    ∧ ¬ ((buildQueue RerunWhen.Never ⟨[], []⟩
        (resolveCrateList [⟨"serde", "2.0.0", 9⟩] ["serde==1.0.0", "serde==1.0.0"])).count
      (⟨"serde", "1.0.0", 9⟩ : Crate) ≤ 1) := by
  have h1 : resolveCrateList [⟨"serde", "2.0.0", 9⟩] ["serde==1.0.0", "serde==1.0.0"]
      = [⟨"serde", "1.0.0", 9⟩, ⟨"serde", "1.0.0", 9⟩] := by
    have h0 : resolveTokens [⟨"serde", "2.0.0", 9⟩] ["serde==1.0.0", "serde==1.0.0"]
        = [⟨"serde", "1.0.0", 9⟩, ⟨"serde", "1.0.0", 9⟩] := by decide
    unfold resolveCrateList sortByDownloadsDesc
    rw [h0]
    rw [List.mergeSort]
    simp [List.splitInTwo, List.splitAt, List.splitAt.go, List.merge]
  rw [h1]
  constructor
  · decide
  · decide

/-- C2 (amended): the build/filter step preserves multiplicities — every
job appears in the Queue exactly as often as it survives the rerun filter,
so a catalog with duplicate (name, version) pairs produces a Queue holding
that job more than once; deduplication happens only across reruns, through
the artifact-existence filter. -/
theorem C2_no_dedup (rerun : RerunWhen) (fs : FS) (catalog : List Crate) (c : Crate) :
    (buildQueue rerun fs catalog).count c
      = (catalog.filter (shouldRun rerun fs)).count c := by
  unfold buildQueue
  exact List.count_reverse _ _

/-- C3 (counterexample): with two crates of download counts 1 and 2, the
first `pop()` from the built Queue hands out the crate with MORE downloads
(the more popular one), contradicting least-popular-first. -/
theorem C3_counterexample :
    drainAll (buildQueue RerunWhen.Always ⟨[], []⟩
        (sortByDownloadsDesc [⟨"a", "1.0.0", 1⟩, ⟨"b", "1.0.0", 2⟩]))
      = [⟨"b", "1.0.0", 2⟩, ⟨"a", "1.0.0", 1⟩]
    ∧ (⟨"a", "1.0.0", 1⟩ : Crate).recent_downloads
        < (⟨"b", "1.0.0", 2⟩ : Crate).recent_downloads := by
  constructor
  · have hs : sortByDownloadsDesc [⟨"a", "1.0.0", 1⟩, ⟨"b", "1.0.0", 2⟩]
        = [⟨"b", "1.0.0", 2⟩, ⟨"a", "1.0.0", 1⟩] := by
      unfold sortByDownloadsDesc
      rw [List.mergeSort]
      simp [List.splitInTwo, List.splitAt, List.splitAt.go, List.merge]
    rw [drainAll_eq_reverse, hs]
    decide
  · decide

/-- C3 (amended): the build step sorts the jobs most-downloaded first,
filters, and reverses, and `Vec::pop` takes from the end of the vector, so
successive `pop()` calls hand out the surviving jobs most-popular-first:
the drain order is exactly the descending-by-downloads order of the
filtered jobs. -/
theorem C3_most_popular_first (rerun : RerunWhen) (fs : FS) (crates : List Crate) :
    drainAll (buildQueue rerun fs (sortByDownloadsDesc crates))
      = (sortByDownloadsDesc crates).filter (shouldRun rerun fs)
    ∧ (drainAll (buildQueue rerun fs (sortByDownloadsDesc crates))).Pairwise
        (fun x y => y.recent_downloads ≤ x.recent_downloads) := by
  have hdrain : drainAll (buildQueue rerun fs (sortByDownloadsDesc crates))
      = (sortByDownloadsDesc crates).filter (shouldRun rerun fs) := by
    rw [drainAll_eq_reverse]
    unfold buildQueue
    rw [List.reverse_reverse]
  refine ⟨hdrain, ?_⟩
  rw [hdrain]
  have hsorted : (sortByDownloadsDesc crates).Pairwise
      (fun x y => y.recent_downloads ≤ x.recent_downloads) := by
    have h : ((crates.mergeSort
          (fun a b => decide (b.recent_downloads ≤ a.recent_downloads))).Pairwise
        (fun a b : Crate => decide (b.recent_downloads ≤ a.recent_downloads) = true)) :=
      List.sorted_mergeSort
        (fun a b c hab hbc => by
          simp only [decide_eq_true_eq] at *
          omega)
        (fun a b => by
          simp only [Bool.or_eq_true, decide_eq_true_eq]
          omega)
        crates
    unfold sortByDownloadsDesc
    exact h.imp (fun hb => by simpa using hb)
  exact hsorted.sublist (List.filter_sublist _)

/-- C4 (counterexample): the child echoes `hi` and then emits `ok-u-`, a
line ending in the dash-surrounded sentinel; the decode step yields
`hi\nok` — the prefix of the sentinel-bearing line survives — not the
echoed content `hi\n` with the sentinel line removed. -/
theorem C4_counterexample :
    readLoop ['-', 'u', '-'] [['h', 'i', '\n'], ['o', 'k', '-', 'u', '-', '\n']] []
      = (['h', 'i', '\n', 'o', 'k'], true)
    ∧ (['h', 'i', '\n', 'o', 'k'] : Buf) ≠ ['h', 'i', '\n'] := by
  constructor
  · decide
  · decide

/-- C4 (amended): the decode step truncates exactly the sentinel marker
plus one adjacent character (the final newline) from the accumulated
buffer: for a child that echoes a line and then emits a final line
`<pfx>-<sentinel>-` (newline-terminated), the decoded output is the echoed
line followed by `pfx`.  The decoded output equals the echoed content with
the sentinel line removed exactly when the final line is the bare marker
(`pfx` empty); any prefix on the sentinel-bearing line is retained. -/
theorem C4_sentinel_strip (s line pfx : Buf)
    (h : endsWithBuf (trimEnd line) (delimWithDashes s) = false) :
    readLoop (delimWithDashes s) [line, pfx ++ (delimWithDashes s ++ ['\n'])] []
      = (line ++ pfx, true) :=
  readLoop_sentinel_line s line pfx h

/-- C4 (witness): the amended theorem at sentinel `u`, echoed line `hi\n`
and bare sentinel line (empty prefix): the decode recovers exactly the
echoed content. -/
theorem C4_sentinel_strip_witness :
    readLoop (delimWithDashes ['u']) [['h', 'i', '\n'], [] ++ (delimWithDashes ['u'] ++ ['\n'])] []
      = (['h', 'i', '\n'] ++ [], true) :=
  C4_sentinel_strip ['u'] ['h', 'i', '\n'] [] (by decide)

/-- C5: the worker loop processes every queued job regardless of the crash
schedule: all `N` jobs complete (in queue pop order), every job's artifact
exists afterwards, and the worker replaces its child with a freshly spawned
one exactly at each `try_wait` crash observation (generation and respawn
count equal the number of crash events); in particular with injected
crashes after every job the respawn count is `N` and the loop still
completes all `N` jobs — the pool is never terminated by a crash. -/
theorem C5_crash_recovery (delim : Buf) (childOut : Nat → Crate → List Buf)
    (crashes : Nat → Bool) (q : List Crate) (fs₀ : FS) :
    (workerLoop delim childOut crashes q ⟨fs₀, [], 0, 0⟩).completed = q.reverse
    ∧ (workerLoop delim childOut crashes q ⟨fs₀, [], 0, 0⟩).completed.length = q.length
    ∧ (∀ c ∈ q,
        fileExists (workerLoop delim childOut crashes q ⟨fs₀, [], 0, 0⟩).fs (artifactPath c)
          = true)
    ∧ (workerLoop delim childOut crashes q ⟨fs₀, [], 0, 0⟩).respawns
        = countCrashes crashes 0 q.length
    ∧ (workerLoop delim childOut crashes q ⟨fs₀, [], 0, 0⟩).gen
        = countCrashes crashes 0 q.length
    ∧ ((∀ k, crashes k = true) →
        (workerLoop delim childOut crashes q ⟨fs₀, [], 0, 0⟩).respawns = q.length) := by
  obtain ⟨h1, h2, h3⟩ := workerLoop_spec delim childOut crashes q ⟨fs₀, [], 0, 0⟩
  have h1' : (workerLoop delim childOut crashes q ⟨fs₀, [], 0, 0⟩).completed = q.reverse := by
    simpa using h1
  have h2' : (workerLoop delim childOut crashes q ⟨fs₀, [], 0, 0⟩).respawns
      = countCrashes crashes 0 q.length := by
    simpa using h2
  refine ⟨h1', by rw [h1']; simp, ?_, h2', by simpa using h3, ?_⟩
  · intro c hc
    exact workerLoop_writes delim childOut crashes q ⟨fs₀, [], 0, 0⟩ c hc
  · intro hcr
    rw [h2']
    exact countCrashes_all_true crashes hcr q.length 0

/-- C5 (witness): a one-job queue with a child that crashes after every
job: the artifact exists and the worker respawned once. -/
theorem C5_crash_recovery_witness :
    fileExists (workerLoop ['-', 'u', '-'] (fun _ _ => [['o', 'k', '\n']]) (fun _ => true)
        [⟨"foo", "1.0.0", 0⟩] ⟨⟨[], []⟩, [], 0, 0⟩).fs (artifactPath ⟨"foo", "1.0.0", 0⟩)
      = true
    ∧ (workerLoop ['-', 'u', '-'] (fun _ _ => [['o', 'k', '\n']]) (fun _ => true)
        [⟨"foo", "1.0.0", 0⟩] ⟨⟨[], []⟩, [], 0, 0⟩).respawns
      = ([⟨"foo", "1.0.0", 0⟩] : List Crate).length := by
  have h := C5_crash_recovery ['-', 'u', '-'] (fun _ _ => [['o', 'k', '\n']]) (fun _ => true)
    [⟨"foo", "1.0.0", 0⟩] ⟨[], []⟩
  exact ⟨h.2.2.1 ⟨"foo", "1.0.0", 0⟩ (by decide), h.2.2.2.2.2 (fun k => rfl)⟩

/-- C6: under every interleaving of mutex-guarded `pop` steps by `P`
workers, the queue contents plus all claimed jobs stay a fixed multiset
(each job is removed at most once and never duplicated); for a
duplicate-free initial queue the jobs claimed across all workers are
pairwise distinct (no two pops return the same job); once the queue is
drained the claimed jobs are exactly the initial contents; and on the
empty queue every worker's step observes empty and changes nothing. -/
theorem C6_pop_unique (P : Nat) (q₀ : List Crate) (sched : List (Fin P)) :
    ((poolRun P q₀ sched).queue : Multiset Crate) + claimedAll (poolRun P q₀ sched)
        = (q₀ : Multiset Crate)
    ∧ (q₀.Nodup → (claimedAll (poolRun P q₀ sched)).Nodup)
    ∧ ((poolRun P q₀ sched).queue = [] →
        claimedAll (poolRun P q₀ sched) = (q₀ : Multiset Crate))
    ∧ ((poolRun P q₀ sched).queue = [] →
        ∀ w : Fin P, poolStep (poolRun P q₀ sched) w = poolRun P q₀ sched) := by
  have hinv := poolRun_invariant P q₀ sched
  refine ⟨hinv, ?_, ?_, ?_⟩
  · intro hnd
    have hle : claimedAll (poolRun P q₀ sched) ≤ (q₀ : Multiset Crate) := by
      rw [← hinv]
      exact le_add_self
    exact Multiset.nodup_of_le hle (Multiset.coe_nodup.mpr hnd)
  · intro hq
    rw [hq] at hinv
    simpa using hinv
  · intro hq w
    have hnone : vecPop (poolRun P q₀ sched).queue = none := by rw [hq]; rfl
    unfold poolStep
    rw [hnone]

/-- C6 (witness): one worker, one job, one step: the claimed multiset is
the initial queue and is duplicate-free. -/
theorem C6_pop_unique_witness :
    (claimedAll (poolRun 1 [⟨"foo", "1.0.0", 0⟩] [0])).Nodup
    ∧ claimedAll (poolRun 1 [⟨"foo", "1.0.0", 0⟩] [0])
        = (([⟨"foo", "1.0.0", 0⟩] : List Crate) : Multiset Crate) := by
  have h := C6_pop_unique 1 [⟨"foo", "1.0.0", 0⟩] [0]
  exact ⟨h.2.1 (by decide), h.2.2.1 (by decide)⟩

/-- C7: the rerun policy defaults to `never`; under `never` a job is in the
built Queue iff it is in the catalog and its artifact path does not exist,
while under `always` every catalog job is kept (the Queue is the whole
catalog, reversed); and after a full first run with `rerun = never` the
Queue rebuilt from the same catalog is empty — the worker loop on that
empty queue performs zero dispatches (it returns immediately, leaving its
state untouched). -/
theorem C7_rerun_policy :
    argsDefaultRerunWhen = RerunWhen.Never
    ∧ (∀ (fs : FS) (catalog : List Crate) (c : Crate),
        c ∈ buildQueue RerunWhen.Never fs catalog
          ↔ c ∈ catalog ∧ fileExists fs (artifactPath c) = false)
    ∧ (∀ (fs : FS) (catalog : List Crate),
        buildQueue RerunWhen.Always fs catalog = catalog.reverse)
    ∧ (∀ (delim : Buf) (childOut : Nat → Crate → List Buf) (crashes : Nat → Bool)
        (fs₀ : FS) (catalog : List Crate),
        buildQueue RerunWhen.Never
          (workerLoop delim childOut crashes (buildQueue RerunWhen.Never fs₀ catalog)
            ⟨fs₀, [], 0, 0⟩).fs
          catalog = [])
    ∧ (∀ (delim : Buf) (childOut : Nat → Crate → List Buf) (crashes : Nat → Bool)
        (st : WRun), workerLoop delim childOut crashes [] st = st) := by
  refine ⟨rfl, ?_, ?_, ?_, fun delim childOut crashes st => workerLoop_nil _ _ _ _⟩
  · exact mem_buildQueue_never
  · intro fs catalog
    unfold buildQueue shouldRun
    simp
  · intro delim childOut crashes fs₀ catalog
    rw [buildQueue_never_eq_nil]
    intro c hc
    by_cases h0 : fileExists fs₀ (artifactPath c) = true
    · exact workerLoop_fs_mono _ _ _ _ _ _ h0
    · refine workerLoop_writes _ _ _ _ _ _ ?_
      refine (mem_buildQueue_never _ _ _).mpr ⟨hc, ?_⟩
      simp only [Bool.not_eq_true] at h0
      exact h0

/-- C8: a completed job's output is persisted as exactly one file at
`logs/<name>/<version>`, the `logs/<name>` directory is created on demand,
and persisting the same job again overwrites the same path (the second
write wins and no second file appears). -/
theorem C8_artifact_layout (fs : FS) (c : Crate) (out out₂ : Buf) :
    artifactPath c = "logs/" ++ c.name ++ "/" ++ c.version
    ∧ lookupFile (persistArtifact fs c out) (artifactPath c) = some out
    ∧ (persistArtifact fs c out).files.countP (fun e => e.1 = artifactPath c) = 1
    ∧ artifactDir c ∈ (persistArtifact fs c out).dirs
    ∧ persistArtifact (persistArtifact fs c out) c out₂ = persistArtifact fs c out₂ := by
  refine ⟨rfl, ?_, ?_, ?_, persistArtifact_overwrite fs c out out₂⟩
  · unfold persistArtifact
    exact lookupFile_writeFile_same _ _ _
  · unfold persistArtifact writeFile
    have hz : ((createDirAll fs (artifactDir c)).files.filter
        (fun e => e.1 ≠ artifactPath c)).countP (fun e => e.1 = artifactPath c) = 0 := by
      rw [List.countP_eq_zero]
      intro e he
      have h2 := (List.mem_filter.mp he).2
      simpa using h2
    simp [List.countP_cons, hz]
  · unfold persistArtifact
    rw [writeFile_dirs]
    exact createDirAll_mem _ _

/-- C9: the estimated-time-remaining arithmetic never divides by zero: the
`my_eta` key renders a dash (no division) whenever the position (completed
count) is 0, and in the computing branch the divisor is the positive
position; the TUI's time-per-crate divisor is likewise never 0 because a
zero completed count is replaced by 1. -/
theorem C9_eta_guard :
    (∀ len e, myEta 0 len e = none)
    ∧ (∀ pos len e, myEta pos len e ≠ some none)
    ∧ (∀ t, cratesCompleted t t = 1)
    ∧ (∀ e t q, q ≤ t → timePerCrate e t q ≠ none) := by
  refine ⟨?_, ?_, ?_, ?_⟩
  · intro len e
    cases len <;> rfl
  · intro pos len e
    match pos, len with
    | 0, none => simp [myEta]
    | 0, some l => simp [myEta]
    | p + 1, none => simp [myEta]
    | p + 1, some l => simp [myEta, checkedDiv]
  · intro t
    unfold cratesCompleted
    simp
  · intro e t q hq
    unfold timePerCrate checkedDiv cratesCompleted
    by_cases h : t = q
    · simp [h]
    · have hne : t - q ≠ 0 := by omega
      simp [h, hne]

/-- C9 (witness): the guard theorem at concrete inputs: five completed out
of ten, and a queue of 4 out of 10 crates. -/
theorem C9_eta_guard_witness :
    myEta 5 (some 10) 60 ≠ some none ∧ timePerCrate 60 10 4 ≠ none :=
  ⟨C9_eta_guard.2.1 5 (some 10) 60, C9_eta_guard.2.2.2 60 10 4 (by decide)⟩

/-- C10: a worker count of 0 — the `--jobs` flag set to 0, or the default
`num_cpus::get_physical() - 1` on a single-core host — spawns no worker
threads, so no pool step is possible: the queue stays untouched, nothing is
claimed, and the join loop over zero threads cannot panic, so the program
still exits with status 0. -/
theorem C10_zero_workers :
    (∀ cpus, workerCount (some 0) cpus = 0)
    ∧ workerCount none 1 = 0
    ∧ (∀ (q : List Crate) (sched : List (Fin 0)),
        (poolRun 0 q sched).queue = q ∧ claimedAll (poolRun 0 q sched) = 0)
    ∧ (∀ panicked : Fin 0 → Bool, joinAllExit 0 panicked = 0) := by
  refine ⟨fun _ => rfl, rfl, ?_, ?_⟩
  · intro q sched
    match sched with
    | [] => exact ⟨rfl, by simp [claimedAll, poolRun]⟩
    | w :: _ => exact w.elim0
  · intro panicked
    unfold joinAllExit
    simp

end MiriTools
